import Mathlib

/-!
Verification of the statistics core of SCoT (src/scot/connectivity_statistics.py).

The module is embedded shallowly:

* a NumPy float array of p-values is a `List (Option ℚ)`: `none` models a NaN
  entry, `some x` an ordinary value (floats are modelled by exact rationals);
* a two-dimensional ensemble array of shape [repeats, K] (the difference tests
  flatten all trailing dimensions into one axis of size K) is a `List (List ℚ)`;
* a raised exception is modelled by an `Option`-returning function yielding
  `none`;
* the opaque collaborators (`randomize_phase`, `var.fit`, `connectivity`,
  `scipy.stats.ttest_ind`, and the random draws of the bootstrap) are
  abstracted into function parameters of the corresponding estimator, since
  the module treats them as black boxes and only sequences their calls.
-/

attribute [local semireducible] Rat.mul Rat.inv Rat.add Rat.sub

/-! ### significance_fdr (lines 215-256) -/

/-- Comparison used by the NumPy ascending sort inside `np.argsort`: ordinary
values compare by value and NaN sorts after every ordinary value (NumPy sorts
NaN to the end). -/
def nanLE : Option ℚ → Option ℚ → Bool
  | none, none => true
  | none, some _ => false
  | some _, none => true
  | some x, some y => decide (x ≤ y)

/-- Elementwise comparison `p <= t` of a float cell with a threshold; a NaN
entry compares false, as IEEE comparisons with NaN do. -/
def pleB : Option ℚ → ℚ → Bool
  | none, _ => false
  | some x, t => decide (x ≤ t)

/-- Order on positions of the p-value list induced by their cell values,
used to sort the flat indices exactly as `np.argsort(p, axis=None)` does. -/
def idxLE (p : List (Option ℚ)) (i j : Nat) : Prop :=
  nanLE (p.getD i none) (p.getD j none) = true

instance (p : List (Option ℚ)) : DecidableRel (idxLE p) :=
  fun _ _ => inferInstanceAs (Decidable (_ = true))

theorem nanLE_refl (x : Option ℚ) : nanLE x x = true := by
  cases x <;> simp [nanLE]

theorem nanLE_total (x y : Option ℚ) : nanLE x y = true ∨ nanLE y x = true := by
  cases x <;> cases y <;> simp [nanLE]
  exact le_total _ _

theorem nanLE_trans {x y z : Option ℚ} (h1 : nanLE x y = true) (h2 : nanLE y z = true) :
    nanLE x z = true := by
  cases x <;> cases y <;> cases z <;> simp_all [nanLE]
  exact le_trans h1 h2

instance (p : List (Option ℚ)) : IsTotal Nat (idxLE p) :=
  ⟨fun a b => nanLE_total (p.getD a none) (p.getD b none)⟩

instance (p : List (Option ℚ)) : IsTrans Nat (idxLE p) :=
  ⟨fun _ _ _ hab hbc => nanLE_trans hab hbc⟩

/-- Embedding of `i = np.argsort(p, axis=None)` (line 239): the list of flat
indices of `p` in ascending order of their values, NaN entries last.  A stable
sort is used, which the spec demands for reproducible tie ranks. -/
def fdr_order (p : List (Option ℚ)) : List Nat :=
  List.insertionSort (idxLE p) (List.range p.length)

/-- Embedding of the rank array `j` (lines 242-243): `j.flat[i] = 1..size`
assigns to every position its 1-indexed rank in the sorted order. -/
def fdrRank (p : List (Option ℚ)) (idx : Nat) : Nat :=
  (fdr_order p).indexOf idx + 1

/-- Embedding of `m = i.size - np.sum(np.isnan(p))` (line 240): the number of
entries that are not NaN. -/
def fdr_m (p : List (Option ℚ)) : Nat :=
  p.length - p.countP (fun x => x.isNone)

/-- Embedding of the elementwise condition `p <= alpha*j/m` (line 245) at one
position. -/
def fdrQual (p : List (Option ℚ)) (alpha : ℚ) (idx : Nat) : Bool :=
  pleB (p.getD idx none) (alpha * (fdrRank p idx : ℚ) / (fdr_m p : ℚ))

/-- Embedding of `mask = p <= alpha*j/m` (line 245) as a flat boolean list. -/
def fdr_mask (p : List (Option ℚ)) (alpha : ℚ) : List Bool :=
  (List.range p.length).map (fdrQual p alpha)

/-- Embedding of `k = np.max(j[mask])` (line 251): the greatest rank among the
positions satisfying the mask (`np.max` of the empty selection is never taken
because of the early return at line 248; the fold returns 0 there). -/
def fdr_k (p : List (Option ℚ)) (alpha : ℚ) : Nat :=
  ((((List.range p.length).filter (fun idx => fdrQual p alpha idx)).map
    (fdrRank p)).foldr max 0)

/-- Embedding of `significance_fdr(p, alpha)` (lines 215-256): Benjamini-
Hochberg FDR control.  Returns the all-false mask when no entry satisfies
`p <= alpha*j/m` (lines 247-248), and otherwise the mask `j <= k` (line 254). -/
def significance_fdr (p : List (Option ℚ)) (alpha : ℚ) : List Bool :=
  if (fdr_mask p alpha).count true = 0 then fdr_mask p alpha
  else (List.range p.length).map (fun idx => decide (fdrRank p idx ≤ fdr_k p alpha))

/-! ### convert_output_ (lines 259-265) and the three estimators

Python dispatches on `isinstance(measures, str)`; the embedding splits that
runtime type test into two functions, one per branch.  A NumPy array stacked
with `np.array(list_of_arrays)` is modelled as the list of its leading-axis
slices, and the dict built by the comprehension at line 264 as an association
list in comprehension order. -/

/-- Branch of `convert_output_` for a single measure name (line 261):
`np.array(output)` stacks the per-repetition arrays along a new leading axis. -/
def convert_output_single {α : Type} (output : List α) : List α :=
  output

/-- Branch of `convert_output_` for a list of measure names (lines 263-264):
for each requested name m the per-repetition values `output[r][m]` are stacked
along a new leading axis. -/
def convert_output_multi {α : Type} (output : List (String → α)) (measures : List String) :
    List (String × List α) :=
  measures.map (fun m => (m, output.map (fun o => o m)))

/-- Embedding of `surrogate_connectivity` (lines 44-50) for a single measure
name.  The loop body of repetition r - phase randomization of the data, the
VAR refit on it and the connectivity computation - consists of opaque
collaborators and is abstracted: `randomize r` is the surrogate dataset of
repetition r and `fitConn` the fit-then-measure computation on it. -/
def surrogate_connectivity_single {δ α : Type} (randomize : Nat → δ) (fitConn : δ → α)
    (repeats : Nat) : List α :=
  convert_output_single ((List.range repeats).map (fun r => fitConn (randomize r)))

/-- Embedding of `surrogate_connectivity` when a list of measure names is
requested; each repetition yields a dict from measure name to array. -/
def surrogate_connectivity_multi {δ α : Type} (randomize : Nat → δ)
    (fitConn : δ → String → α) (measures : List String) (repeats : Nat) :
    List (String × List α) :=
  convert_output_multi ((List.range repeats).map (fun r => fitConn (randomize r))) measures

/-- Embedding of `bootstrap_connectivity` (lines 135-142) for a single measure
name: repetition r draws the trial multiset `draw r` (the
`np.random.random_integers` mask of line 137) and fits/measures on it. -/
def bootstrap_connectivity_single {α : Type} (draw : Nat → List Nat) (fitConn : List Nat → α)
    (repeats : Nat) : List α :=
  convert_output_single ((List.range repeats).map (fun r => fitConn (draw r)))

/-- Embedding of `bootstrap_connectivity` when a list of measure names is
requested. -/
def bootstrap_connectivity_multi {α : Type} (draw : Nat → List Nat)
    (fitConn : List Nat → String → α) (measures : List String) (repeats : Nat) :
    List (String × List α) :=
  convert_output_multi ((List.range repeats).map (fun r => fitConn (draw r))) measures

/-! ### jackknife_connectivity (lines 83-98) -/

/-- Embedding of the trial mask of block b (line 93): all trials i with
`i < b*leaveout or i >= (b+1)*leaveout`. -/
def jackknife_mask (t leaveout b : Nat) : List Nat :=
  (List.range t).filter (fun i => decide (i < b * leaveout) || decide ((b + 1) * leaveout ≤ i))

/-- Embedding of `jackknife_connectivity` (lines 83-98) for a single measure
name and an integer leaveout >= 1 (the fractional branch at lines 86-87 does
not fire then): `num_blocks = int(t / leaveout)` estimates, block b fitted on
the trials of `jackknife_mask`. -/
def jackknife_connectivity_single {α : Type} (fitConn : List Nat → α) (t leaveout : Nat) :
    List α :=
  convert_output_single
    ((List.range (t / leaveout)).map (fun b => fitConn (jackknife_mask t leaveout b)))

/-- Embedding of `jackknife_connectivity` for a list of measure names. -/
def jackknife_connectivity_multi {α : Type} (fitConn : List Nat → String → α)
    (measures : List String) (t leaveout : Nat) : List (String × List α) :=
  convert_output_multi
    ((List.range (t / leaveout)).map (fun b => fitConn (jackknife_mask t leaveout b))) measures

/-- Embedding of lines 86-89 for an arbitrary integer `leaveout`: the
fractional rescaling `leaveout = int(leaveout * t)` when `leaveout < 1`,
then `num_blocks = int(t / leaveout)` (truncation toward zero, as Python's
`int()` of the float quotient).  `none` models the ZeroDivisionError raised
when the adjusted leaveout is zero - raised before the loop starts. -/
def jackknife_num_blocks (t : Nat) (leaveout : Int) : Option Int :=
  let l := if leaveout < 1 then leaveout * t else leaveout
  if l = 0 then none else some (Int.tdiv t l)

/-! ### test_bootstrap_difference (lines 145-193) -/

/-- NumPy elementwise subtraction `x - y` of two one-dimensional arrays with
broadcasting: equal lengths subtract pointwise, a length-1 operand broadcasts,
anything else raises (ValueError), modelled as `none`. -/
def npSub (x y : List ℚ) : Option (List ℚ) :=
  if x.length = y.length then some (List.zipWith (fun u v => u - v) x y)
  else if x.length = 1 then some (y.map (fun v => x.headD 0 - v))
  else if y.length = 1 then some (x.map (fun u => u - y.headD 0))
  else none

/-- NumPy elementwise addition of the count accumulator and a 0/1 vector
(`s1 += c >= 0`), with the same one-dimensional broadcasting rule.  The Python
scalar initializer `s1 = 0` behaves like a length-1 operand. -/
def accAdd (s c : List Nat) : Option (List Nat) :=
  if s.length = c.length then some (List.zipWith (fun u v => u + v) s c)
  else if s.length = 1 then some (c.map (fun v => s.headD 0 + v))
  else if c.length = 1 then some (s.map (fun u => u + c.headD 0))
  else none

/-- Loop body of `test_bootstrap_difference` (lines 185-189) for the index
pair ij: `c = b[ij.2] - a[ij.1]`, then `s1 += c >= 0` and `s2 += c <= 0`.
Indexing `b` out of range (the IndexError Python raises when b has fewer
repetitions than a) and broadcast failures yield `none`. -/
def btdStep (a b : List (List ℚ)) (st : Option (List Nat × List Nat)) (ij : Nat × Nat) :
    Option (List Nat × List Nat) :=
  match st with
  | none => none
  | some (s1, s2) =>
    match b[ij.2]? with
    | none => none
    | some brow =>
      match npSub brow (a.getD ij.1 []) with
      | none => none
      | some c =>
        match accAdd s1 (c.map (fun v => if 0 ≤ v then 1 else 0)),
              accAdd s2 (c.map (fun v => if v ≤ 0 then 1 else 0)) with
        | some t1, some t2 => some (t1, t2)
        | _, _ => none

/-- Embedding of `test_bootstrap_difference(a, b)` (lines 178-193) on the
already-flattened ensembles (rows = repetitions, columns = the K flattened
trailing coordinates).  As in the source, `n = a.shape[0]` bounds BOTH loop
indices of the cartesian product (line 185) and the denominator is `n*n`
(line 191); the final check models `p.reshape(old_shape)`, which raises when
the broadcast result size differs from a's trailing size. -/
def test_bootstrap_difference (a b : List (List ℚ)) : Option (List ℚ) :=
  let n := a.length
  let pairs := (List.range n).flatMap (fun i => (List.range n).map (fun j => (i, j)))
  match pairs.foldl (btdStep a b) (some ([0], [0])) with
  | none => none
  | some (s1, s2) =>
    let p := (List.zipWith (fun u v => min u v) s1 s2).map
      (fun s => (s : ℚ) / ((n : ℚ) * (n : ℚ)))
    if p.length = (a.headD []).length then some p else none

/-- P-value array that the claim (and the function's own docstring, lines
168-172) prescribes: over ALL pairs i in [0,Ra), j in [0,Rb), count the pairs
with b[j,k] - a[i,k] >= 0 and those <= 0, and take min(s1,s2)/(Ra*Rb) per
coordinate k.  Clearly named spec-side definition, written from the claim's
words for comparison with the code-side `test_bootstrap_difference`. -/
def bootstrap_difference_claim (a b : List (List ℚ)) : List ℚ :=
  let ra := a.length
  let rb := b.length
  let pairs := (List.range ra).flatMap (fun i => (List.range rb).map (fun j => (i, j)))
  (List.range ((a.headD []).length)).map (fun k =>
    let s1 := pairs.countP
      (fun ij => decide (0 ≤ (b.getD ij.2 []).getD k 0 - (a.getD ij.1 []).getD k 0))
    let s2 := pairs.countP
      (fun ij => decide ((b.getD ij.2 []).getD k 0 - (a.getD ij.1 []).getD k 0 ≤ 0))
    ((min s1 s2 : Nat) : ℚ) / ((ra : ℚ) * (rb : ℚ)))

/-! ### test_rank_difference_a (lines 196-212) -/

/-- Column k of a two-dimensional array (the samples along the first
dimension at trailing coordinate k). -/
def getCol (a : List (List ℚ)) (k : Nat) : List ℚ :=
  a.map (fun row => row.getD k 0)

/-- Embedding of `test_rank_difference_a(a, b)` (lines 196-212) on flattened
ensembles.  The assert at line 201 compares the trailing shapes and raises
AssertionError (`none`) on mismatch; the per-column Welch t-test of
`scipy.stats.ttest_ind` (line 209) is an opaque collaborator abstracted as
`ttest`, applied to the two sample columns of every coordinate. -/
def test_rank_difference_a (ttest : List ℚ → List ℚ → ℚ) (a b : List (List ℚ)) :
    Option (List ℚ) :=
  if (b.headD []).length = (a.headD []).length then
    some ((List.range ((a.headD []).length)).map (fun k => ttest (getCol a k) (getCol b k)))
  else none

/-- P-value list of the concrete scenario named by the spec: p-values
0.01, 0.02, 0.03, 0.5, 0.7. -/
def pvals_example : List (Option ℚ) :=
  [some (1/100), some (2/100), some (3/100), some (5/10), some (7/10)]

/-! ### helper lemmas about significance_fdr -/

theorem getD_map_range {α : Type} {n : Nat} (f : Nat → α) {idx : Nat} (d : α) (h : idx < n) :
    ((List.range n).map f).getD idx d = f idx := by
  simp [List.getD, List.getElem?_map, List.getElem?_range, h]

theorem fdr_order_perm (p : List (Option ℚ)) :
    List.Perm (fdr_order p) (List.range p.length) :=
  List.perm_insertionSort _ _

theorem mem_fdr_order {p : List (Option ℚ)} {idx : Nat} :
    idx ∈ fdr_order p ↔ idx < p.length := by
  rw [(fdr_order_perm p).mem_iff, List.mem_range]

theorem fdr_order_sorted (p : List (Option ℚ)) :
    List.Sorted (idxLE p) (fdr_order p) :=
  List.sorted_insertionSort (idxLE p) _

theorem fdrRank_lt_of_nanLE_false {p : List (Option ℚ)} {i j : Nat}
    (hi : i < p.length) (hj : j < p.length)
    (hf : nanLE (p.getD i none) (p.getD j none) = false) :
    fdrRank p j < fdrRank p i := by
  have hiM : i ∈ fdr_order p := mem_fdr_order.mpr hi
  have hjM : j ∈ fdr_order p := mem_fdr_order.mpr hj
  have hiL : (fdr_order p).indexOf i < (fdr_order p).length :=
    List.indexOf_lt_length.mpr hiM
  have hjL : (fdr_order p).indexOf j < (fdr_order p).length :=
    List.indexOf_lt_length.mpr hjM
  rcases Nat.lt_trichotomy ((fdr_order p).indexOf i) ((fdr_order p).indexOf j) with
    hlt | heq | hgt
  · exfalso
    have hp := (List.pairwise_iff_getElem.mp (fdr_order_sorted p)) _ _ hiL hjL hlt
    rw [List.getElem_indexOf hiL, List.getElem_indexOf hjL] at hp
    rw [idxLE, hf] at hp
    cases hp
  · exfalso
    have hij : i = j := (List.indexOf_inj hiM hjM).mp heq
    rw [hij, nanLE_refl] at hf
    cases hf
  · unfold fdrRank
    omega

theorem fdr_mask_count_eq_zero_iff {p : List (Option ℚ)} {alpha : ℚ} :
    (fdr_mask p alpha).count true = 0 ↔ ∀ i, i < p.length → fdrQual p alpha i = false := by
  rw [List.count_eq_zero]
  constructor
  · intro h i hi
    by_contra hq
    exact h (List.mem_map.mpr ⟨i, List.mem_range.mpr hi,
      (Bool.not_eq_false _).mp hq⟩)
  · intro h htrue
    rcases List.mem_map.mp htrue with ⟨i, hir, hfi⟩
    rw [h i (List.mem_range.mp hir)] at hfi
    cases hfi

theorem mem_qualRanks {p : List (Option ℚ)} {alpha : ℚ} {r : Nat} :
    r ∈ (((List.range p.length).filter (fun idx => fdrQual p alpha idx)).map (fdrRank p)) ↔
      ∃ i, i < p.length ∧ fdrQual p alpha i = true ∧ fdrRank p i = r := by
  constructor
  · intro h
    rcases List.mem_map.mp h with ⟨i, hif, hr⟩
    rcases List.mem_filter.mp hif with ⟨hir, hq⟩
    exact ⟨i, List.mem_range.mp hir, hq, hr⟩
  · rintro ⟨i, hi, hq, hr⟩
    exact List.mem_map.mpr ⟨i, List.mem_filter.mpr ⟨List.mem_range.mpr hi, hq⟩, hr⟩

theorem le_foldr_max {l : List Nat} {x : Nat} (h : x ∈ l) : x ≤ l.foldr max 0 := by
  induction l with
  | nil => cases h
  | cons y ys ih =>
    rcases List.mem_cons.mp h with rfl | hm
    · exact le_max_left _ _
    · exact le_trans (ih hm) (le_max_right _ _)

theorem foldr_max_mem {l : List Nat} (h : l ≠ []) : l.foldr max 0 ∈ l := by
  induction l with
  | nil => exact absurd rfl h
  | cons y ys ih =>
    cases hys : ys with
    | nil => simp
    | cons z zs =>
      rw [List.foldr_cons]
      rcases max_choice y (ys.foldr max 0) with hm | hm
      · rw [← hys, hm]
        exact List.mem_cons_self _ _
      · rw [← hys, hm]
        exact List.mem_cons_of_mem _ (ih (by rw [hys]; exact List.cons_ne_nil _ _))

theorem significance_fdr_length (p : List (Option ℚ)) (alpha : ℚ) :
    (significance_fdr p alpha).length = p.length := by
  unfold significance_fdr
  by_cases h : (fdr_mask p alpha).count true = 0
  · rw [if_pos h, fdr_mask]
    simp
  · rw [if_neg h]
    simp

theorem significance_fdr_getD_iff {p : List (Option ℚ)} {alpha : ℚ} {idx : Nat}
    (h : idx < p.length) :
    (significance_fdr p alpha).getD idx false = true ↔
      ∃ i0, i0 < p.length ∧ fdrQual p alpha i0 = true ∧ fdrRank p idx ≤ fdrRank p i0 := by
  unfold significance_fdr
  by_cases hc : (fdr_mask p alpha).count true = 0
  · rw [if_pos hc]
    rw [fdr_mask, getD_map_range _ _ h]
    have hall := fdr_mask_count_eq_zero_iff.mp hc
    constructor
    · intro hq
      rw [hall idx h] at hq
      cases hq
    · rintro ⟨i0, h0, hq0, _⟩
      rw [hall i0 h0] at hq0
      cases hq0
  · rw [if_neg hc, getD_map_range _ _ h, decide_eq_true_iff]
    constructor
    · intro hle
      have hne : (((List.range p.length).filter (fun idx => fdrQual p alpha idx)).map
          (fdrRank p)) ≠ [] := by
        have htrue : true ∈ fdr_mask p alpha :=
          List.count_pos_iff.mp (Nat.pos_of_ne_zero hc)
        rcases List.mem_map.mp htrue with ⟨i, hir, hfi⟩
        exact List.ne_nil_of_mem (mem_qualRanks.mpr
          ⟨i, List.mem_range.mp hir, hfi, rfl⟩)
      rcases mem_qualRanks.mp (foldr_max_mem hne) with ⟨i0, h0, hq, hr⟩
      refine ⟨i0, h0, hq, ?_⟩
      rw [hr]
      exact hle
    · rintro ⟨i0, h0, hq, hle⟩
      have hmem : fdrRank p i0 ∈ (((List.range p.length).filter
          (fun idx => fdrQual p alpha idx)).map (fdrRank p)) :=
        mem_qualRanks.mpr ⟨i0, h0, hq, rfl⟩
      exact le_trans hle (le_foldr_max hmem)

theorem fdrQual_mono {p : List (Option ℚ)} {a1 a2 : ℚ} {i : Nat}
    (h12 : a1 ≤ a2) (hq : fdrQual p a1 i = true) :
    fdrQual p a2 i = true := by
  unfold fdrQual at hq ⊢
  cases hx : p.getD i none with
  | none =>
    rw [hx] at hq
    cases hq
  | some x =>
    rw [hx] at hq
    rw [pleB, decide_eq_true_iff] at hq ⊢
    refine le_trans hq ?_
    by_cases hm : (fdr_m p : ℚ) = 0
    · rw [hm, div_zero, div_zero]
    · have hmpos : (0:ℚ) < (fdr_m p : ℚ) :=
        lt_of_le_of_ne (Nat.cast_nonneg _) (Ne.symm hm)
      exact (div_le_div_iff_of_pos_right hmpos).mpr
        (mul_le_mul_of_nonneg_right h12 (Nat.cast_nonneg _))

theorem count_true_le_of_pointwise (l1 l2 : List Bool) (hlen : l1.length = l2.length)
    (hp : ∀ i, i < l1.length → l1.getD i false = true → l2.getD i false = true) :
    l1.count true ≤ l2.count true := by
  induction l1 generalizing l2 with
  | nil => simp
  | cons x xs ih =>
    cases l2 with
    | nil => simp at hlen
    | cons y ys =>
      have hxy : x = true → y = true := by
        intro hx0
        have := hp 0 (by simp) (by simpa using hx0)
        simpa using this
      have ht : xs.count true ≤ ys.count true := by
        refine ih ys (by simpa using hlen) ?_
        intro i hi hgi
        have := hp (i + 1) (by simpa using Nat.succ_lt_succ hi) (by simpa using hgi)
        simpa using this
      cases x with
      | true =>
        have hy : y = true := hxy rfl
        subst hy
        simp [List.count_cons]
        omega
      | false =>
        cases y with
        | false =>
          simp [List.count_cons]
          omega
        | true =>
          simp [List.count_cons]
          omega

/-! ### claim theorems about significance_fdr -/

/-- C2: significance_fdr implements the Benjamini-Hochberg rule.  With every
entry ranked ascending (1-indexed, `fdrRank`) and m the count of non-NaN
entries: if no entry satisfies p <= alpha*(rank/m) the result is the
all-false mask of p's shape; otherwise, with k (`fdr_k`) the maximum rank
among the entries satisfying the inequality, exactly the entries of rank <= k
are marked.  In particular on p = [0.01, 0.02, 0.03, 0.5, 0.7] with
alpha = 0.05 exactly the three smallest p-values are marked significant. -/
theorem significance_fdr_bh :
    (∀ (p : List (Option ℚ)) (alpha : ℚ),
      ((∀ i, i < p.length → fdrQual p alpha i = false) →
        significance_fdr p alpha = List.replicate p.length false)
      ∧ ((∃ i, i < p.length ∧ fdrQual p alpha i = true) →
        ∀ idx, idx < p.length →
          (significance_fdr p alpha).getD idx false =
            decide (fdrRank p idx ≤ fdr_k p alpha)))
    ∧ significance_fdr pvals_example (1/20) = [true, true, true, false, false] := by
  constructor
  · intro p alpha
    constructor
    · intro hall
      have hc : (fdr_mask p alpha).count true = 0 :=
        fdr_mask_count_eq_zero_iff.mpr hall
      rw [significance_fdr, if_pos hc]
      refine List.eq_replicate_iff.mpr ⟨by simp [fdr_mask], ?_⟩
      intro b hb
      rcases List.mem_map.mp hb with ⟨i, hir, hfi⟩
      rw [← hfi, hall i (List.mem_range.mp hir)]
    · rintro ⟨i, hi, hq⟩ idx hidx
      have hc : (fdr_mask p alpha).count true ≠ 0 := by
        intro hc0
        rw [fdr_mask_count_eq_zero_iff.mp hc0 i hi] at hq
        cases hq
      rw [significance_fdr, if_neg hc, getD_map_range _ _ hidx]
  · decide

/-- Witness for C2: a list with its single entry above the threshold comes
back as the all-false mask. -/
theorem significance_fdr_bh_witness :
    significance_fdr [some ((3:ℚ)/4)] (1/2) = List.replicate 1 false :=
  (significance_fdr_bh.1 [some ((3:ℚ)/4)] (1/2)).1 (by decide)

/-- C7: for fixed p and alpha1 <= alpha2 in (0,1), the number of entries
marked significant by significance_fdr at level alpha1 is at most the number
marked at level alpha2. -/
theorem significance_fdr_monotone (p : List (Option ℚ)) (a1 a2 : ℚ)
    (_ha1 : 0 < a1) (h12 : a1 ≤ a2) (_ha2 : a2 < 1) :
    (significance_fdr p a1).count true ≤ (significance_fdr p a2).count true := by
  refine count_true_le_of_pointwise _ _ ?_ ?_
  · rw [significance_fdr_length, significance_fdr_length]
  · intro i hi hg
    rw [significance_fdr_length] at hi
    rcases (significance_fdr_getD_iff hi).mp hg with ⟨i0, h0, hq, hle⟩
    exact (significance_fdr_getD_iff hi).mpr ⟨i0, h0, fdrQual_mono h12 hq, hle⟩

/-- Witness for C7 at the spec's example p-values and levels 0.01 and 0.05. -/
theorem significance_fdr_monotone_witness :
    (0:ℚ) < 1/100 ∧ (1:ℚ)/100 ≤ 1/20 ∧ (1:ℚ)/20 < 1 ∧
      (significance_fdr pvals_example (1/100)).count true ≤
        (significance_fdr pvals_example (1/20)).count true :=
  ⟨by decide, by decide, by decide,
    significance_fdr_monotone pvals_example (1/100) (1/20)
      (by decide) (by decide) (by decide)⟩

/-- C10: significance_fdr never marks a NaN entry as significant: a NaN entry
sorts after every ordinary entry, so its rank exceeds the rank of every entry
satisfying the threshold inequality, and its mask value is false. -/
theorem significance_fdr_nan_not_significant (p : List (Option ℚ)) (alpha : ℚ)
    (idx : Nat) (h : idx < p.length) (hn : p.getD idx none = none) :
    (significance_fdr p alpha).getD idx false = false := by
  by_contra hb
  have htrue : (significance_fdr p alpha).getD idx false = true :=
    (Bool.not_eq_false _).mp hb
  rcases (significance_fdr_getD_iff h).mp htrue with ⟨i0, h0, hq, hle⟩
  cases hx : p.getD i0 none with
  | none =>
    rw [fdrQual, hx] at hq
    cases hq
  | some x =>
    have hlt : fdrRank p i0 < fdrRank p idx :=
      fdrRank_lt_of_nanLE_false h h0 (by rw [hn, hx]; rfl)
    omega

/-- Witness for C10: the NaN entry of [0.01, NaN] is not marked at
alpha = 0.05. -/
theorem significance_fdr_nan_not_significant_witness :
    1 < ([some ((1:ℚ)/100), none] : List (Option ℚ)).length ∧
      (significance_fdr [some ((1:ℚ)/100), none] (1/20)).getD 1 false = false :=
  ⟨by decide,
    significance_fdr_nan_not_significant [some ((1:ℚ)/100), none] (1/20) 1
      (by decide) rfl⟩

/-! ### claim theorems about the estimators and aggregator -/

/-- C3: jackknife_connectivity computes floor(t/leaveout) estimates; estimate
b is fitted on exactly the trials outside the contiguous block
[b*leaveout, (b+1)*leaveout); blocks are pairwise non-overlapping; remainder
trials beyond the last block are never left out (they are in every block's
kept-trial mask); and with leaveout = 1 the leading dimension equals t. -/
theorem jackknife_connectivity_spec {α : Type} (fitConn : List Nat → α)
    (t leaveout : Nat) (_hl : 1 ≤ leaveout) :
    (jackknife_connectivity_single fitConn t leaveout).length = t / leaveout
    ∧ (∀ b, b < t / leaveout →
        (jackknife_connectivity_single fitConn t leaveout).getD b (fitConn []) =
          fitConn ((List.range t).filter
            (fun i => !(decide (b * leaveout ≤ i) && decide (i < (b + 1) * leaveout)))))
    ∧ (∀ b1 b2, b1 < t / leaveout → b2 < t / leaveout → b1 ≠ b2 → ∀ i,
        ¬(b1 * leaveout ≤ i ∧ i < (b1 + 1) * leaveout ∧
          b2 * leaveout ≤ i ∧ i < (b2 + 1) * leaveout))
    ∧ (∀ i, (t / leaveout) * leaveout ≤ i → i < t → ∀ b, b < t / leaveout →
        i ∈ jackknife_mask t leaveout b)
    ∧ (leaveout = 1 → (jackknife_connectivity_single fitConn t leaveout).length = t) := by
  refine ⟨by simp [jackknife_connectivity_single, convert_output_single], ?_, ?_, ?_, ?_⟩
  · intro b hb
    rw [jackknife_connectivity_single, convert_output_single, getD_map_range _ _ hb]
    apply congrArg fitConn
    rw [jackknife_mask]
    apply List.filter_congr
    intro i _
    by_cases h1 : b * leaveout ≤ i <;> by_cases h2 : i < (b + 1) * leaveout <;>
      simp [h1, h2] <;> omega
  · rintro b1 b2 hb1 hb2 hne i ⟨ha1, ha2, ha3, ha4⟩
    rcases Nat.lt_or_ge b1 b2 with h | h
    · have hm : (b1 + 1) * leaveout ≤ b2 * leaveout := Nat.mul_le_mul_right _ h
      omega
    · have hlt : b2 < b1 := lt_of_le_of_ne h (fun he => hne he.symm)
      have hm : (b2 + 1) * leaveout ≤ b1 * leaveout := Nat.mul_le_mul_right _ hlt
      omega
  · intro i hge hi b hb
    refine List.mem_filter.mpr ⟨List.mem_range.mpr hi, ?_⟩
    have hm : (b + 1) * leaveout ≤ (t / leaveout) * leaveout := Nat.mul_le_mul_right _ hb
    simp only [Bool.or_eq_true, decide_eq_true_eq]
    omega
  · intro h1
    subst h1
    simp [jackknife_connectivity_single, convert_output_single]

/-- Witness for C3 at t = 3 trials and leaveout = 1. -/
theorem jackknife_connectivity_spec_witness :
    1 ≤ 1 ∧ (jackknife_connectivity_single (fun m : List Nat => m) 3 1).length = 3 / 1 :=
  ⟨le_refl 1, (jackknife_connectivity_spec (fun m => m) 3 1 (le_refl 1)).1⟩

/-- C9: with at least one trial and leaveout >= t, jackknife_connectivity
returns without raising (in particular the block-count division raises no
ZeroDivisionError): the ensemble has floor(t/leaveout) <= 1 estimates - zero
when leaveout exceeds t, one when leaveout equals t. -/
theorem jackknife_large_leaveout {α : Type} (fitConn : List Nat → α)
    (t leaveout : Nat) (ht : 1 ≤ t) (hlt : t ≤ leaveout) :
    (jackknife_num_blocks t (leaveout : Int)).isSome = true
    ∧ (jackknife_connectivity_single fitConn t leaveout).length = t / leaveout
    ∧ t / leaveout ≤ 1
    ∧ (t < leaveout → (jackknife_connectivity_single fitConn t leaveout).length = 0)
    ∧ (leaveout = t → (jackknife_connectivity_single fitConn t leaveout).length = 1) := by
  have hlen : (jackknife_connectivity_single fitConn t leaveout).length = t / leaveout := by
    simp [jackknife_connectivity_single, convert_output_single]
  have hdle : t / leaveout ≤ 1 := by
    rcases lt_or_eq_of_le hlt with h | h
    · rw [Nat.div_eq_of_lt h]
      exact Nat.zero_le 1
    · subst h
      rw [Nat.div_self (lt_of_lt_of_le Nat.zero_lt_one ht)]
  refine ⟨?_, hlen, hdle, ?_, ?_⟩
  · rw [jackknife_num_blocks]
    rw [if_neg (by omega), if_neg (by omega)]
    rfl
  · intro h
    rw [hlen, Nat.div_eq_of_lt h]
  · intro h
    subst h
    rw [hlen, Nat.div_self (lt_of_lt_of_le Nat.zero_lt_one ht)]

/-- Witness for C9 at t = 2 trials and leaveout = 5. -/
theorem jackknife_large_leaveout_witness :
    1 ≤ 2 ∧ 2 ≤ 5 ∧ (jackknife_connectivity_single (fun m : List Nat => m) 2 5).length = 0 :=
  ⟨by decide, by decide,
    (jackknife_large_leaveout (fun m => m) 2 5 (by decide) (by decide)).2.2.2.1 (by decide)⟩

/-- C4: for repeats >= 1, surrogate_connectivity and bootstrap_connectivity
return an ensemble whose leading dimension equals repeats; when a list of
measure names is requested, every value of the returned mapping has leading
dimension repeats. -/
theorem ensemble_leading_dim {δ α : Type} (randomize : Nat → δ) (fitConnS : δ → α)
    (fitConnM : δ → String → α) (draw : Nat → List Nat) (fitConnBS : List Nat → α)
    (fitConnBM : List Nat → String → α) (measures : List String) (repeats : Nat)
    (_hr : 1 ≤ repeats) :
    (surrogate_connectivity_single randomize fitConnS repeats).length = repeats
    ∧ (bootstrap_connectivity_single draw fitConnBS repeats).length = repeats
    ∧ (∀ pr ∈ surrogate_connectivity_multi randomize fitConnM measures repeats,
        pr.2.length = repeats)
    ∧ (∀ pr ∈ bootstrap_connectivity_multi draw fitConnBM measures repeats,
        pr.2.length = repeats) := by
  refine ⟨by simp [surrogate_connectivity_single, convert_output_single],
    by simp [bootstrap_connectivity_single, convert_output_single], ?_, ?_⟩
  · intro pr hpr
    rcases List.mem_map.mp hpr with ⟨m, _, hm⟩
    rw [← hm]
    simp
  · intro pr hpr
    rcases List.mem_map.mp hpr with ⟨m, _, hm⟩
    rw [← hm]
    simp

/-- Witness for C4 at repeats = 2 with a two-measure request. -/
theorem ensemble_leading_dim_witness :
    1 ≤ 2 ∧ (surrogate_connectivity_single (fun r => r) (fun d : Nat => d) 2).length = 2 :=
  ⟨by decide,
    (ensemble_leading_dim (fun r => r) (fun d : Nat => d) (fun _ _ => (0:Nat))
      (fun _ => []) (fun _ => (0:Nat)) (fun _ _ => (0:Nat)) ["a", "b"] 2 (by decide)).1⟩

/-- C8: convert_output_ with a single measure name returns the per-repetition
arrays stacked along a new leading axis; with a list of measure names it
returns a mapping whose keys are exactly the requested names, each value
stacked with leading dimension equal to the repeat count. -/
theorem convert_output_spec {α β : Type} (output : List α)
    (outputM : List (String → β)) (measures : List String) :
    convert_output_single output = output
    ∧ (convert_output_single output).length = output.length
    ∧ (convert_output_multi outputM measures).map Prod.fst = measures
    ∧ (∀ pr ∈ convert_output_multi outputM measures, pr.2.length = outputM.length) := by
  refine ⟨rfl, rfl, ?_, ?_⟩
  · rw [convert_output_multi, List.map_map]
    exact List.map_id _
  · intro pr hpr
    rcases List.mem_map.mp hpr with ⟨m, _, hm⟩
    rw [← hm]
    simp

/-- Witness for C8: two requested measure names give back exactly those keys,
and a member's value has the repeat count as leading dimension. -/
theorem convert_output_spec_witness :
    ((convert_output_multi [fun _ : String => (0:Nat)] ["x", "y"]).map Prod.fst = ["x", "y"])
    ∧ ("x", [(0:Nat)]).2.length = 1 :=
  ⟨(convert_output_spec [(0:Nat)] [fun _ : String => (0:Nat)] ["x", "y"]).2.2.1,
    (convert_output_spec [(0:Nat)] [fun _ : String => (0:Nat)] ["x", "y"]).2.2.2
      ("x", [0]) (by decide)⟩

/-! ### claim theorems about validation and the difference tests -/

/-- C5 counterexample: significance_fdr performs no alpha validation: at
alpha = 2, far outside (0,1), it returns an ordinary mask instead of raising
an invalid-parameter error (here the single entry is even marked
significant). -/
theorem no_alpha_validation_counterexample :
    significance_fdr [some ((1:ℚ)/2)] 2 = [true] := by decide

/-- C5 amended: the module performs no invalid-parameter validation.
repeats < 1 silently yields an empty ensemble (the loop body never runs);
jackknife_connectivity with leaveout = 0 raises only an incidental
ZeroDivisionError at the block-count division (before the loop), while a
negative leaveout yields a negative block count and hence an empty ensemble
without any error; significance_fdr accepts any alpha and returns a mask. -/
theorem no_eager_validation :
    (∀ (randomize : Nat → Nat) (fitConn : Nat → Nat),
      surrogate_connectivity_single randomize fitConn 0 = [])
    ∧ (∀ (draw : Nat → List Nat) (fitConn : List Nat → Nat),
      bootstrap_connectivity_single draw fitConn 0 = [])
    ∧ jackknife_num_blocks 5 0 = none
    ∧ jackknife_num_blocks 5 (-1) = some (-1)
    ∧ significance_fdr [some ((1:ℚ)/2)] 2 = [true] :=
  ⟨fun _ _ => rfl, fun _ _ => rfl, by decide, by decide, by decide⟩

/-- C6 counterexample: test_bootstrap_difference raises no shape-mismatch
error: at trailing shapes (2,) and (1,) - which disagree - NumPy
broadcasting silently absorbs the mismatch and a p-value array is returned. -/
theorem btd_no_shape_check_counterexample :
    test_bootstrap_difference [[1, 2]] [[5]] = some [0, 0] := by decide

/-- C6 amended: only test_rank_difference_a checks the trailing shapes: its
assert raises whenever they disagree; test_bootstrap_difference performs no
explicit check - a broadcast-compatible mismatch (one trailing size equal
to 1) returns normally, and an incompatible one fails only inside the loop
as a broadcasting error. -/
theorem shape_mismatch_behavior (ttest : List ℚ → List ℚ → ℚ) (a b : List (List ℚ))
    (hmm : (b.headD []).length ≠ (a.headD []).length) :
    test_rank_difference_a ttest a b = none
    ∧ test_bootstrap_difference [[1, 2]] [[5]] = some [0, 0]
    ∧ test_bootstrap_difference [[1, 2]] [[5, 6, 7]] = none := by
  refine ⟨?_, by decide, by decide⟩
  rw [test_rank_difference_a, if_neg hmm]

/-- Witness for C6's amended claim: the rank test refuses trailing sizes
2 vs 1. -/
theorem shape_mismatch_behavior_witness :
    (([[(5:ℚ)]] : List (List ℚ)).headD []).length ≠
      (([[(1:ℚ), 2]] : List (List ℚ)).headD []).length
    ∧ test_rank_difference_a (fun _ _ => 0) [[1, 2]] [[5]] = none :=
  ⟨by decide, (shape_mismatch_behavior (fun _ _ => 0) [[1, 2]] [[5]] (by decide)).1⟩

/-- C1: evaluation at the failing input.  With Ra = 1, Rb = 2 the code pairs
only the first row of b against a - line 185 bounds BOTH indices of the
cartesian product by n = a.shape[0] and line 191 divides by n*n - so it
returns p = [0], while the formula of the claim (and of the function's own
docstring, lines 161 and 168-172: all Ra*Rb pairs, denominator Ra*Rb) gives
[1/2].  With Ra = 2, Rb = 1 the code even raises an IndexError.  At equal
repeat counts the two agree, as the last two conjuncts illustrate. -/
theorem btd_unequal_repeats_bug :
    test_bootstrap_difference [[0]] [[1], [-1]] = some [0]
    ∧ bootstrap_difference_claim [[0]] [[1], [-1]] = [1/2]
    ∧ test_bootstrap_difference [[0], [1]] [[2]] = none
    ∧ test_bootstrap_difference [[0], [1]] [[2], [3]] = some [0]
    ∧ bootstrap_difference_claim [[0], [1]] [[2], [3]] = [0] :=
  ⟨by decide, by decide, by decide, by decide, by decide⟩

